import Mathlib

/-!
Verification development for the NewsRobot scraper
(`src/scrapper/scrapper.py`, class `MainScrapper`).

The Python code is shallowly embedded: pure helpers become Lean
functions over `List Char` / `String`; Selenium, HTTP and Excel
effects become explicit environments (`Except`-valued fields), and
Python exceptions become `Except PyErr`.  All definitions are
executable and structurally recursive so that concrete runs can be
settled by `decide` / `rfl`.
-/

namespace NewsRobot

/-- Python exception values relevant to the scraper. -/
inductive PyErr where
  | timeout
  | elementNotFound
  | indexError
  | generic
deriving DecidableEq, Repr

/-! ## Character classes (ASCII fragment of Python's `str` / `re` classes) -/

/-- Python regex `\w` (ASCII fragment): letters, digits, underscore. -/
def isWordChar (c : Char) : Bool := c.isAlphanum || c == '_'

/-- Python regex `\s` / `str.strip` whitespace (ASCII fragment). -/
def isPySpace (c : Char) : Bool :=
  c == ' ' || c == '\t' || c == '\n' || c == '\r' || c == '\x0b' || c == '\x0c'

/-! ## Python string primitives -/

/-- Match a literal (`lit`) at the head of `l`, returning the remainder:
the anchored part of `re.search` for plain text, also used for
`str.startswith`-like checks. -/
def matchLit : List Char → List Char → Option (List Char)
  | [], l => some l
  | _ :: _, [] => none
  | c :: cs, d :: ds => if c = d then matchLit cs ds else none

/-- Python `str.strip()` (left and right whitespace removal). -/
def py_strip (l : List Char) : List Char :=
  ((l.dropWhile isPySpace).reverse.dropWhile isPySpace).reverse

/-- Python `list.__getitem__` with an `int` index: negative indices wrap
from the end, out-of-range raises `IndexError`. -/
def py_getitem {α : Type} (l : List α) (i : Int) : Except PyErr α :=
  let j : Int := if i < 0 then i + l.length else i
  if 0 ≤ j then
    match l.get? j.toNat with
    | some a => .ok a
    | none => .error .indexError
  else .error .indexError

/-- Helper for `split_ellipsis`: push a character onto the first segment. -/
def consHead (c : Char) : List (List Char) → List (List Char)
  | [] => [[c]]
  | seg :: segs => (c :: seg) :: segs

/-- Python `text.split('...')` specialised to the literal `'...'`
separator used at `scrapper.py:209`: non-overlapping, leftmost-first
occurrences of three dots split the string. -/
def split_ellipsis : List Char → List (List Char)
  | '.' :: '.' :: '.' :: rest => [] :: split_ellipsis rest
  | c :: rest => consHead c (split_ellipsis rest)
  | [] => [[]]

/-- Fuelled scanner for `py_count` (fuel bounds the scan length so the
recursion is structural; `py_count` supplies enough fuel). -/
def py_count_fuel (sub : List Char) : Nat → List Char → Nat
  | 0, _ => 0
  | _ + 1, [] => 0
  | fuel + 1, c :: rest =>
    if sub.isPrefixOf (c :: rest) then
      1 + py_count_fuel sub fuel (List.drop (sub.length - 1) rest)
    else
      py_count_fuel sub fuel rest

/-- CPython `str.count(sub)`: number of non-overlapping occurrences of
`sub`, scanning left to right; the empty pattern is counted `len + 1`
times. -/
def py_count (sub l : List Char) : Nat :=
  if sub = [] then l.length + 1 else py_count_fuel sub l.length l

/-! ## The three money regexes of `MainScrapper.contains_money`
(`scrapper.py:277-281`).  Each regex is embedded as a nondeterministic
matcher: a `... Tails` function returns every remainder reachable by
consuming one regex piece, and a search succeeds iff some sequence of
choices completes the pattern — exactly `re.search` existence. -/

/-- Remainders after consuming `\d+` (one or more digits). -/
def digitRunTails : List Char → List (List Char)
  | [] => []
  | c :: rest => if c.isDigit then rest :: digitRunTails rest else []

/-- Remainders after consuming `(?:,\d{3})*` (zero or more
comma-separated thousands groups). -/
def groupTails : List Char → List (List Char)
  | ',' :: a :: b :: c :: rest =>
    (',' :: a :: b :: c :: rest) ::
      (if a.isDigit && b.isDigit && c.isDigit then groupTails rest else [])
  | l => [l]

/-- Remainders after consuming `(?:\.\d{1,2})?` (an optional decimal
part of one or two digits). -/
def optDecTails (l : List Char) : List (List Char) :=
  l ::
    match l with
    | '.' :: a :: rest =>
      if a.isDigit then
        rest ::
          (match rest with
           | b :: rest2 => if b.isDigit then [rest2] else []
           | [] => [])
      else []
    | _ => []

/-- Anchored match of `\$\d+(?:,\d{3})*(?:\.\d{1,2})?` at the head of
the list (the regex ends here, so any remainder is accepted). -/
def dollarAmountAt : List Char → Bool
  | '$' :: rest =>
    (digitRunTails rest).any fun t1 =>
      (groupTails t1).any fun t2 => !(optDecTails t2).isEmpty
  | _ => false

/-- `re.search` of the dollar-sign pattern: try every start position. -/
def searchDollarAmount : List Char → Bool
  | [] => false
  | c :: rest => dollarAmountAt (c :: rest) || searchDollarAmount rest

/-- Literal `lit` then a trailing `\b`: since the literals end in a word
character, the boundary requires the next character (if any) to be a
non-word character. -/
def litThenBoundary (lit : List Char) (l : List Char) : Bool :=
  match matchLit lit l with
  | some [] => true
  | some (c :: _) => !isWordChar c
  | none => false

/-- After at least one whitespace has been consumed: either the literal
starts here, or consume more whitespace (`\s+` backtracking). -/
def wsLitRest (lit : List Char) : List Char → Bool
  | [] => litThenBoundary lit []
  | c :: rest => litThenBoundary lit (c :: rest) || (isPySpace c && wsLitRest lit rest)

/-- `\s+` then `lit` then `\b`. -/
def wsThenLitTail (lit : List Char) : List Char → Bool
  | [] => false
  | c :: rest => isPySpace c && wsLitRest lit rest

/-- Anchored match of `\d+(?:,\d{3})*\s+lit\b` at the head of the list. -/
def numWordAt (lit : List Char) (l : List Char) : Bool :=
  (digitRunTails l).any fun t1 =>
    (groupTails t1).any fun t2 => wsThenLitTail lit t2

/-- `re.search` of `\b\d+(?:,\d{3})*\s+lit\b`: try every start position,
tracking the previous character for the leading word boundary (the
pattern starts with a digit, so the boundary holds iff the previous
character is absent or a non-word character). -/
def searchNumWord (lit : List Char) : Option Char → List Char → Bool
  | _, [] => false
  | prev, c :: rest =>
    ((match prev with
      | none => true
      | some p => !isWordChar p) && numWordAt lit (c :: rest))
    || searchNumWord lit (some c) rest

/-- The pattern list of `MainScrapper.contains_money`
(`scrapper.py:277-281`), in source order. -/
def moneyPatternMatchers : List (List Char → Bool) :=
  [searchDollarAmount,
   fun l => searchNumWord "dollars".data none l,
   fun l => searchNumWord "USD".data none l]

/-- `MainScrapper.contains_money` (`scrapper.py:266-287`): loop over the
patterns, returning `True` at the first `re.search` hit, `False` after
the loop. -/
def contains_money (text : String) : Bool :=
  moneyPatternMatchers.any fun p => p text.data

/-! ## Date parsing: `MainScrapper.convert_string_to_datetime`
(`scrapper.py:289-314`). -/

/-- A `datetime.datetime` restricted to the fields the scraper uses. -/
structure PyDate where
  year : Nat
  month : Nat
  day : Nat
deriving DecidableEq, Repr

/-- Month-abbreviation table lookup (lowercased key). -/
def monthLookup (k : Char × Char × Char) : Option Nat :=
  if k = ('j', 'a', 'n') then some 1
  else if k = ('f', 'e', 'b') then some 2
  else if k = ('m', 'a', 'r') then some 3
  else if k = ('a', 'p', 'r') then some 4
  else if k = ('m', 'a', 'y') then some 5
  else if k = ('j', 'u', 'n') then some 6
  else if k = ('j', 'u', 'l') then some 7
  else if k = ('a', 'u', 'g') then some 8
  else if k = ('s', 'e', 'p') then some 9
  else if k = ('o', 'c', 't') then some 10
  else if k = ('n', 'o', 'v') then some 11
  else if k = ('d', 'e', 'c') then some 12
  else none

/-- `%b` month lookup of `datetime.strptime` (case-insensitive
three-letter English abbreviations). -/
def monthFromAbbrev (a b c : Char) : Option Nat :=
  monthLookup (a.toLower, b.toLower, c.toLower)

/-- Gregorian leap-year rule used by `datetime`. -/
def isLeapYear (y : Nat) : Bool :=
  y % 4 = 0 && (y % 100 ≠ 0 || y % 400 = 0)

/-- Days in a month, as validated by the `datetime` constructor. -/
def daysInMonth (y m : Nat) : Nat :=
  if m = 2 then (if isLeapYear y then 29 else 28)
  else if m = 4 || m = 6 || m = 9 || m = 11 then 30
  else 31

def digitVal (c : Char) : Nat := c.toNat - '0'.toNat

/-- Second half of `strptime(_, '%d %b %Y')`: after the day, expect
three month letters, a space and four year digits, then validate the
date (`datetime` requires `year ≥ 1` and a day within the month). -/
def finishMonthYear (day : Nat) : List Char → Option PyDate
  | m1 :: m2 :: m3 :: ' ' :: y1 :: y2 :: y3 :: y4 :: [] =>
    match monthFromAbbrev m1 m2 m3 with
    | some mo =>
      if y1.isDigit && y2.isDigit && y3.isDigit && y4.isDigit then
        let y := 1000 * digitVal y1 + 100 * digitVal y2 + 10 * digitVal y3 + digitVal y4
        if 1 ≤ y ∧ 1 ≤ day ∧ day ≤ daysInMonth y mo then some ⟨y, mo, day⟩ else none
      else none
    | none => none
  | _ => none

/-- `datetime.strptime(g, '%d %b %Y')` on a regex group of shape
`\d{1,2} \w{3} \d{4}` (the only shape `group(1)` can take): `some` on a
valid calendar date, `none` for the `ValueError` branch. -/
def strptime_dbY : List Char → Option PyDate
  | a :: ' ' :: rest =>
    if a.isDigit then finishMonthYear (digitVal a) rest else none
  | a :: b :: ' ' :: rest =>
    if a.isDigit && b.isDigit then finishMonthYear (10 * digitVal a + digitVal b) rest else none
  | _ => none

/-- Anchored match of the group `(\d{1,2} \w{3} \d{4})`: one or two day
digits (greedy, then backtrack), a space, three word characters, a
space, four digits; returns the captured group text. -/
def matchMonYear : List Char → Option (List Char)
  | ' ' :: w1 :: w2 :: w3 :: ' ' :: y1 :: y2 :: y3 :: y4 :: _ =>
    if isWordChar w1 && isWordChar w2 && isWordChar w3
        && y1.isDigit && y2.isDigit && y3.isDigit && y4.isDigit then
      some [' ', w1, w2, w3, ' ', y1, y2, y3, y4]
    else none
  | _ => none

def matchDayMonYear : List Char → Option (List Char)
  | a :: rest =>
    if a.isDigit then
      (match rest with
       | b :: rest2 =>
         if b.isDigit then (matchMonYear rest2).map fun t => a :: b :: t else none
       | [] => none)
      <|> (matchMonYear rest).map fun t => a :: t
    else none
  | [] => none

/-- `re.search(lit ++ '(\d{1,2} \w{3} \d{4})', s)`: scan left to right
for the leftmost position where the literal prefix and the date group
both match; return `group(1)`. -/
def searchDatePattern (lit : List Char) : List Char → Option (List Char)
  | [] => none
  | c :: rest =>
    match matchLit lit (c :: rest) with
    | some after =>
      (match matchDayMonYear after with
       | some g => some g
       | none => searchDatePattern lit rest)
    | none => searchDatePattern lit rest

/-- `MainScrapper.convert_string_to_datetime` (`scrapper.py:289-314`),
embedded exactly as written: the `return None` on line 314 is indented
inside the `for pattern in date_patterns` loop, so only the first
pattern (`'Published On (\d{1,2} \w{3} \d{4})'`) is ever tried — on its
first iteration the function either returns the parsed date, or `None`
(whether the pattern missed or `strptime` raised `ValueError`).  The
second pattern (`'Last update ...'`, line 302) is unreachable.  A blank
(whitespace-only) input skips the loop and falls off the end (`None`). -/
def convert_string_to_datetime (date_string : String) : Option PyDate :=
  if py_strip date_string.data ≠ [] then
    match searchDatePattern "Published On ".data date_string.data with
    | some g => strptime_dbY g
    | none => none
  else none

/-! ## `date.strftime('%d %b %Y')` (`scrapper.py:220`). -/

/-- `%d`: zero-padded two-digit day. -/
def pad2 (n : Nat) : String := if n < 10 then "0" ++ toString n else toString n

/-- `%b`: capitalised month abbreviation. -/
def monthAbbrev : Nat → String
  | 1 => "Jan" | 2 => "Feb" | 3 => "Mar" | 4 => "Apr" | 5 => "May" | 6 => "Jun"
  | 7 => "Jul" | 8 => "Aug" | 9 => "Sep" | 10 => "Oct" | 11 => "Nov" | 12 => "Dec"
  | _ => ""

def strftime_dbY (d : PyDate) : String :=
  pad2 d.day ++ " " ++ monthAbbrev d.month ++ " " ++ toString d.year

/-! ## Data model -/

/-- A `requests` HTTP response (status code and body bytes). -/
structure HttpResp where
  status : Nat
  content : String
deriving DecidableEq, Repr

/-- What `MainScrapper.get_news_image` produces: the returned file name
and the files it wrote (path, bytes). -/
structure FetchResult where
  name : String
  writes : List (String × String)
deriving DecidableEq, Repr

/-- One processed article row (the dict built at `scrapper.py:218-228`,
field order = insertion order). -/
structure ArticleRecord where
  title : String
  date : String
  description : String
  search_term_occurrence : Nat
  contains_money : Bool
  img_file_name : String
deriving DecidableEq, Repr

instance {ε α : Type} [DecidableEq ε] [DecidableEq α] : DecidableEq (Except ε α) := fun x y =>
  match x, y with
  | .ok a, .ok b => if h : a = b then .isTrue (by rw [h]) else .isFalse (by simp [h])
  | .error a, .error b => if h : a = b then .isTrue (by rw [h]) else .isFalse (by simp [h])
  | .ok _, .error _ => .isFalse (by simp)
  | .error _, .ok _ => .isFalse (by simp)

/-- One raw search-result element.  Each field models the corresponding
`find_element(...).text` / `.get_attribute('src')` call on that element;
`.error` models the call raising (e.g. `NoSuchElementException`). -/
structure RawArticleHandle where
  title : Except PyErr String
  descriptionText : Except PyErr String
  footerText : Except PyErr String
  imgSrc : Except PyErr String
deriving DecidableEq, Repr

/-- External world of the extractor: the HTTP client used by
`requests.get` ( `.error` models a raised `requests` exception such as a
timeout, `.ok` a response object). -/
structure ExtractorEnv where
  http : String → Except PyErr HttpResp

/-- `self.img_directory` (`scrapper.py:92`). -/
def img_directory : String := "output/imgs"

/-- `MainScrapper.get_news_image` (`scrapper.py:127-157`).  The
`requests.get` call is NOT wrapped in any try/except, so a raised
request exception propagates to the caller; a non-200 status logs a
warning and returns the sentinel `'Unavailable'`; a 200 status writes
`output/imgs/img_<idx>.png` and returns `img_<idx>.png`. -/
def get_news_image (http : String → Except PyErr HttpResp) (img_src : String) (idx : Nat) :
    Except PyErr FetchResult :=
  match http img_src with
  | .error e => .error e
  | .ok resp =>
    if resp.status = 200 then
      .ok ⟨"img_" ++ toString idx ++ ".png",
           [(img_directory ++ "/" ++ ("img_" ++ toString idx ++ ".png"), resp.content)]⟩
    else
      .ok ⟨"Unavailable", []⟩

/-- The description computation of `scrapper.py:209-210`:
`text.split('...')` then `description[len(description) - 2].strip()`
(a Python index, so `-1` wraps to the last element when the split has a
single segment). -/
def descriptionFrom (s : String) : Except PyErr String :=
  match py_getitem (split_ellipsis s.data) (((split_ellipsis s.data).length : Int) - 2) with
  | .ok seg => .ok (String.mk (py_strip seg))
  | .error e => .error e

/-- Outcome of one iteration of the extraction loop body. -/
inductive StepOutcome where
  | add (r : ArticleRecord)
  | skip
  | stop
deriving DecidableEq, Repr

/-- The `try` body of one iteration of
`MainScrapper.process_news_payload` (`scrapper.py:207-231`): read title,
description, footer date; a `None` date falls through (skip); an
in-range month builds the record dict (fetching the image); an
out-of-range month hits `break` (stop); any raised exception is
returned as `.error` for the enclosing `except` to swallow. -/
def processBody (env : ExtractorEnv) (mlimit : Int) (phrase : String) (i : Nat)
    (h : RawArticleHandle) : Except PyErr StepOutcome :=
  match h.title with
  | .error e => .error e
  | .ok title =>
    match h.descriptionText with
    | .error e => .error e
    | .ok descText =>
      match descriptionFrom descText with
      | .error e => .error e
      | .ok description =>
        match h.footerText with
        | .error e => .error e
        | .ok footer =>
          match convert_string_to_datetime footer with
          | none => .ok .skip
          | some date =>
            if (date.month : Int) ≥ mlimit then
              match h.imgSrc with
              | .error e => .error e
              | .ok src =>
                match get_news_image env.http src i with
                | .error e => .error e
                | .ok fetched =>
                  .ok (.add
                    { title := title
                      date := strftime_dbY date
                      description := description
                      search_term_occurrence :=
                        py_count phrase.data title.data + py_count phrase.data description.data
                      contains_money := contains_money title || contains_money description
                      img_file_name := fetched.name })
            else .ok .stop

/-- `MainScrapper.process_news_payload` (`scrapper.py:194-236`): iterate
with `enumerate` index `i`; an exception in the body is caught and
logged (the handle is skipped), `break` ends the loop, otherwise the
built record (if any) is appended. -/
def process_news_payload (env : ExtractorEnv) (mlimit : Int) (phrase : String) :
    List RawArticleHandle → Nat → List ArticleRecord
  | [], _ => []
  | h :: rest, i =>
    match processBody env mlimit phrase i h with
    | .error _ => process_news_payload env mlimit phrase rest (i + 1)
    | .ok .skip => process_news_payload env mlimit phrase rest (i + 1)
    | .ok .stop => []
    | .ok (.add r) => r :: process_news_payload env mlimit phrase rest (i + 1)

/-- `self.month_limit = dt.now().month - max(number_of_months - 1, 0)`
(`scrapper.py:84`). -/
def month_limit (current_month number_of_months : Int) : Int :=
  current_month - max (number_of_months - 1) 0

/-! ## Report writer: `MainScrapper.save_payload_to_excel`
(`scrapper.py:238-264`). -/

/-- A spreadsheet cell value (the three value types the scraper puts in
its dicts). -/
inductive CellValue where
  | str (s : String)
  | nat (n : Nat)
  | bool (b : Bool)
deriving DecidableEq, Repr

/-- The record dict literal of `scrapper.py:218-228` as an ordered
association list (Python dicts iterate in insertion order). -/
def recordToDict (r : ArticleRecord) : List (String × CellValue) :=
  [("title", .str r.title),
   ("date", .str r.date),
   ("description", .str r.description),
   ("search_term_occurrence", .nat r.search_term_occurrence),
   ("contains_money", .bool r.contains_money),
   ("img_file_name", .str r.img_file_name)]

/-- `MainScrapper.save_payload_to_excel` (`scrapper.py:238-264`),
modelled as the sequence of `set_cell_value(row, col, value)` calls it
performs: `payload[0].keys()` raises `IndexError` on an empty payload;
otherwise the keys of the first dict go to row 1 (columns from 1) and
each dict's items go to rows from 2 (columns from 1), in each dict's
own iteration order. -/
def save_payload_to_excel (payload : List (List (String × CellValue))) :
    Except PyErr (List (Nat × Nat × CellValue)) :=
  match payload with
  | [] => .error .indexError
  | first :: restP =>
    .ok ((List.enumFrom 1 (first.map Prod.fst)).map (fun p => (1, p.1, CellValue.str p.2)) ++
         (List.enumFrom 2 (first :: restP)).flatMap fun q =>
           (List.enumFrom 1 q.2).map fun p => (q.1, p.1, p.2.2))

/-! ## Run controller: `MainScrapper.scrape` (`scrapper.py:94-125`). -/

/-- External collaborators of one `scrape` run.  The first three fields
model `self.search_news()`, the `WebDriverWait ... presence_of_element`
call, and `self.get_news_list_by_date()`; `save` models the Excel write
(all of them may raise).  `ext`, `mlimit`, `phrase` feed the extractor. -/
structure RunEnv where
  search_news : Except PyErr Unit
  wait_sort : Except PyErr Unit
  get_news_list : Except PyErr (List RawArticleHandle)
  save : List ArticleRecord → Except PyErr Unit
  ext : ExtractorEnv
  mlimit : Int
  phrase : String

/-- What one run produces: the value/exception seen by the caller, how
many times `close_all_browsers()` ran, and whether `logging.error` was
called. -/
structure ScrapeOutcome where
  result : Except PyErr Unit
  browserCloses : Nat
  loggedError : Bool
deriving Repr

/-- The `try` body of `scrape` (`scrapper.py:104-115`): search, wait for
the sort control, extract, write. -/
def scrapeInner (env : RunEnv) : Except PyErr Unit := do
  env.search_news
  env.wait_sort
  let l ← env.get_news_list
  env.save (process_news_payload env.ext env.mlimit env.phrase l 0)

/-- `MainScrapper.scrape` (`scrapper.py:94-125`): on success the
`finally` closes the browser once; on any exception the `except` logs
the error, closes the browser, and re-raises a fresh generic
`Exception` (`raise Exception from error`), after which the `finally`
closes again. -/
def scrape (env : RunEnv) : ScrapeOutcome :=
  match scrapeInner env with
  | .ok _ => { result := .ok (), browserCloses := 1, loggedError := false }
  | .error _ => { result := .error .generic, browserCloses := 2, loggedError := true }

/-! ## Spec-side characterisations -/

/-- Classification of one loop iteration: did the body reach `break`? -/
def handleStops (env : ExtractorEnv) (mlimit : Int) (phrase : String)
    (p : Nat × RawArticleHandle) : Bool :=
  match processBody env mlimit phrase p.1 p.2 with
  | .ok .stop => true
  | _ => false

/-- The record one loop iteration contributes, if any. -/
def handleRecord (env : ExtractorEnv) (mlimit : Int) (phrase : String)
    (p : Nat × RawArticleHandle) : Option ArticleRecord :=
  match processBody env mlimit phrase p.1 p.2 with
  | .ok (.add r) => some r
  | _ => none

/-- Zero or more thousands groups `(?:,\d{3})*`: a comma followed by
exactly three digits, repeated. -/
inductive ThousandsGroups : List Char → Prop where
  | nil : ThousandsGroups []
  | cons (a b c : Char) (rest : List Char) :
      a.isDigit = true → b.isDigit = true → c.isDigit = true →
      ThousandsGroups rest → ThousandsGroups (',' :: a :: b :: c :: rest)

/-- An optional decimal part of up to two digits `(?:\.\d{1,2})?`. -/
def OptDecPart (x : List Char) : Prop :=
  x = [] ∨ (∃ a, a.isDigit = true ∧ x = ['.', a]) ∨
    (∃ a b, a.isDigit = true ∧ b.isDigit = true ∧ x = ['.', a, b])

/-- No word character starts this list (right-hand side of a `\b`). -/
def boundaryHead : List Char → Bool
  | [] => true
  | c :: _ => !isWordChar c

/-- No word character ends this option (left-hand side of a `\b`). -/
def notWordOpt : Option Char → Bool
  | none => true
  | some c => !isWordChar c

/-- The claim's first money form, following its words: the text contains
a dollar sign, then an amount made of digits with optional
comma-separated thousands groups and up to two decimal places. -/
def SpecDollarAmount (s : List Char) : Prop :=
  ∃ pre d g x post, d ≠ [] ∧ (∀ c ∈ d, c.isDigit = true) ∧
    ThousandsGroups g ∧ OptDecPart x ∧
    s = pre ++ '$' :: (d ++ g ++ x ++ post)

/-- The claim's second and third money forms, following its words: the
text contains an integer (digits with optional thousands groups) at a
word boundary, whitespace, then the literal word `lit` ending at a word
boundary. -/
def SpecNumWord (lit s : List Char) : Prop :=
  ∃ pre d g w post, d ≠ [] ∧ (∀ c ∈ d, c.isDigit = true) ∧
    ThousandsGroups g ∧ w ≠ [] ∧ (∀ c ∈ w, isPySpace c = true) ∧
    notWordOpt pre.getLast? = true ∧ boundaryHead post = true ∧
    s = pre ++ (d ++ g ++ w ++ lit ++ post)

/-! ## Helper lemmas: literal matching -/

theorem matchLit_eq_some (lit : List Char) :
    ∀ l r : List Char, matchLit lit l = some r ↔ l = lit ++ r := by
  induction lit with
  | nil =>
    intro l r
    simp [matchLit, eq_comm]
  | cons c cs ih =>
    intro l r
    cases l with
    | nil =>
      constructor
      · intro h; exact Option.noConfusion h
      · intro h; rw [List.cons_append] at h; exact List.noConfusion h
    | cons d ds =>
      simp only [matchLit, List.cons_append, List.cons.injEq]
      by_cases hcd : c = d
      · subst hcd
        simp [ih]
      · rw [if_neg hcd]
        constructor
        · intro h; exact Option.noConfusion h
        · rintro ⟨rfl, -⟩; exact absurd rfl hcd

/-! ## Helper lemmas: the digit-run piece `\d+` -/

theorem mem_digitRunTails :
    ∀ l t : List Char, t ∈ digitRunTails l ↔
      ∃ d, d ≠ [] ∧ (∀ c ∈ d, c.isDigit = true) ∧ l = d ++ t := by
  intro l
  induction l with
  | nil =>
    intro t
    simp only [digitRunTails, List.not_mem_nil, false_iff, not_exists]
    rintro d ⟨hd, -, heq⟩
    exact hd (List.append_eq_nil.mp heq.symm).1
  | cons c rest ih =>
    intro t
    by_cases hc : c.isDigit
    · simp only [digitRunTails, if_pos hc, List.mem_cons]
      constructor
      · rintro (rfl | ht)
        · exact ⟨[c], by simp, by simpa using hc, rfl⟩
        · obtain ⟨d, hne, hdig, rfl⟩ := (ih t).mp ht
          refine ⟨c :: d, by simp, ?_, rfl⟩
          intro x hx
          rcases List.mem_cons.mp hx with rfl | hx
          · exact hc
          · exact hdig x hx
      · rintro ⟨d, hne, hdig, heq⟩
        cases d with
        | nil => exact absurd rfl hne
        | cons a d' =>
          rw [List.cons_append, List.cons.injEq] at heq
          obtain ⟨rfl, heq⟩ := heq
          cases d' with
          | nil => left; exact heq.symm
          | cons a' d'' =>
            right
            refine (ih t).mpr ⟨a' :: d'', by simp, ?_, heq⟩
            intro x hx
            exact hdig x (List.mem_cons_of_mem _ hx)
    · simp only [digitRunTails, if_neg hc, List.not_mem_nil, false_iff, not_exists]
      rintro d ⟨hne, hdig, heq⟩
      cases d with
      | nil => exact hne rfl
      | cons a d' =>
        rw [List.cons_append, List.cons.injEq] at heq
        exact hc (heq.1 ▸ hdig a (List.mem_cons_self a d'))

/-! ## Helper lemmas: the thousands-groups piece `(?:,\d{3})*` -/

theorem groupTails_fallback (l : List Char)
    (hshape : ∀ (a b c : Char) (rest : List Char), l = ',' :: a :: b :: c :: rest → False) :
    groupTails l = [l] := by
  unfold groupTails
  split
  · rename_i a b c rest
    exact absurd rfl (hshape a b c rest)
  · rfl

theorem self_mem_groupTails (l : List Char) : l ∈ groupTails l := by
  unfold groupTails
  split
  · exact List.mem_cons_self _ _
  · exact List.mem_singleton.mpr rfl

theorem mem_groupTails (t : List Char) :
    ∀ l : List Char, t ∈ groupTails l ↔ ∃ g, ThousandsGroups g ∧ l = g ++ t := by
  intro l
  induction l using groupTails.induct with
  | case1 a b c rest ih =>
    have hgt : groupTails (',' :: a :: b :: c :: rest) =
        (',' :: a :: b :: c :: rest) ::
          (if a.isDigit && b.isDigit && c.isDigit then groupTails rest else []) := rfl
    rw [hgt]
    by_cases hd : a.isDigit && b.isDigit && c.isDigit
    · rw [if_pos hd]
      simp only [List.mem_cons, Bool.and_eq_true] at *
      constructor
      · rintro (rfl | ht)
        · exact ⟨[], .nil, rfl⟩
        · obtain ⟨g, hg, rfl⟩ := ih.mp ht
          exact ⟨',' :: a :: b :: c :: g, .cons a b c g hd.1.1 hd.1.2 hd.2 hg, rfl⟩
      · rintro ⟨g, hg, heq⟩
        cases hg with
        | nil => left; exact heq.symm
        | cons a' b' c' g' ha hb hc hg' =>
          right
          simp only [List.cons_append, List.cons.injEq] at heq
          obtain ⟨-, rfl, rfl, rfl, hrest⟩ := heq
          exact ih.mpr ⟨g', hg', hrest⟩
    · rw [if_neg hd]
      simp only [List.mem_cons, List.not_mem_nil, or_false]
      constructor
      · rintro rfl; exact ⟨[], .nil, rfl⟩
      · rintro ⟨g, hg, heq⟩
        cases hg with
        | nil => exact heq.symm
        | cons a' b' c' g' ha hb hc hg' =>
          simp only [List.cons_append, List.cons.injEq] at heq
          obtain ⟨-, rfl, rfl, rfl, -⟩ := heq
          rw [ha, hb, hc] at hd
          exact absurd rfl hd
  | case2 l hshape =>
    rw [groupTails_fallback l hshape]
    simp only [List.mem_singleton]
    constructor
    · rintro rfl; exact ⟨[], .nil, rfl⟩
    · rintro ⟨g, hg, heq⟩
      cases hg with
      | nil => exact heq.symm
      | cons a' b' c' g' ha hb hc hg' =>
        rw [List.cons_append] at heq
        exact absurd heq (fun h => hshape a' b' c' (g' ++ t) h)

/-! ## Helper lemmas: whitespace, literal and boundary pieces -/

theorem litThenBoundary_iff (lit l : List Char) :
    litThenBoundary lit l = true ↔ ∃ post, boundaryHead post = true ∧ l = lit ++ post := by
  constructor
  · intro h
    unfold litThenBoundary at h
    cases hm : matchLit lit l with
    | none => rw [hm] at h; exact Bool.noConfusion h
    | some rest =>
      rw [hm] at h
      refine ⟨rest, ?_, (matchLit_eq_some lit l rest).mp hm⟩
      cases rest with
      | nil => rfl
      | cons c cs => exact h
  · rintro ⟨post, hb, rfl⟩
    unfold litThenBoundary
    rw [(matchLit_eq_some lit _ post).mpr rfl]
    cases post with
    | nil => rfl
    | cons c cs => exact hb

theorem wsLitRest_iff (lit : List Char) (hlit : lit ≠ []) :
    ∀ l, wsLitRest lit l = true ↔
      ∃ w post, (∀ c ∈ w, isPySpace c = true) ∧ boundaryHead post = true ∧
        l = w ++ lit ++ post := by
  intro l
  induction l with
  | nil =>
    simp only [wsLitRest]
    constructor
    · intro h
      obtain ⟨post, hb, habs⟩ := (litThenBoundary_iff lit []).mp h
      exact absurd (List.append_eq_nil.mp habs.symm).1 hlit
    · rintro ⟨w, post, hw, hb, habs⟩
      rw [List.append_assoc] at habs
      exact absurd (List.append_eq_nil.mp (List.append_eq_nil.mp habs.symm).2).1 hlit
  | cons c rest ih =>
    simp only [wsLitRest, Bool.or_eq_true, Bool.and_eq_true]
    constructor
    · rintro (h | ⟨hsp, hrec⟩)
      · obtain ⟨post, hb, heq⟩ := (litThenBoundary_iff lit _).mp h
        exact ⟨[], post, by simp, hb, by simpa using heq⟩
      · obtain ⟨w, post, hw, hb, heq⟩ := ih.mp hrec
        refine ⟨c :: w, post, ?_, hb, by rw [heq]; rfl⟩
        intro x hx
        rcases List.mem_cons.mp hx with rfl | hx
        · exact hsp
        · exact hw x hx
    · rintro ⟨w, post, hw, hb, heq⟩
      cases w with
      | nil =>
        left
        exact (litThenBoundary_iff lit _).mpr ⟨post, hb, by simpa using heq⟩
      | cons cw w' =>
        right
        rw [List.cons_append, List.cons_append, List.cons.injEq] at heq
        obtain ⟨rfl, hrest⟩ := heq
        refine ⟨hw c (List.mem_cons_self c w'), ih.mpr ⟨w', post, ?_, hb, hrest⟩⟩
        intro x hx
        exact hw x (List.mem_cons_of_mem _ hx)

theorem wsThenLitTail_iff (lit : List Char) (hlit : lit ≠ []) (l : List Char) :
    wsThenLitTail lit l = true ↔
      ∃ w post, w ≠ [] ∧ (∀ c ∈ w, isPySpace c = true) ∧ boundaryHead post = true ∧
        l = w ++ lit ++ post := by
  cases l with
  | nil =>
    simp only [wsThenLitTail]
    constructor
    · intro h; exact Bool.noConfusion h
    · rintro ⟨w, post, hne, hw, hb, habs⟩
      cases w with
      | nil => exact absurd rfl hne
      | cons cw w' => rw [List.cons_append, List.cons_append] at habs; exact List.noConfusion habs
  | cons c rest =>
    simp only [wsThenLitTail, Bool.and_eq_true]
    constructor
    · rintro ⟨hsp, hrec⟩
      obtain ⟨w, post, hw, hb, rfl⟩ := (wsLitRest_iff lit hlit rest).mp hrec
      refine ⟨c :: w, post, by simp, ?_, hb, rfl⟩
      intro x hx
      rcases List.mem_cons.mp hx with rfl | hx
      · exact hsp
      · exact hw x hx
    · rintro ⟨w, post, hne, hw, hb, heq⟩
      cases w with
      | nil => exact absurd rfl hne
      | cons cw w' =>
        rw [List.cons_append, List.cons_append, List.cons.injEq] at heq
        obtain ⟨rfl, hrest⟩ := heq
        refine ⟨hw c (List.mem_cons_self c w'), (wsLitRest_iff lit hlit rest).mpr
          ⟨w', post, ?_, hb, hrest⟩⟩
        intro x hx
        exact hw x (List.mem_cons_of_mem _ hx)

theorem numWordAt_iff (lit : List Char) (hlit : lit ≠ []) (l : List Char) :
    numWordAt lit l = true ↔
      ∃ d g w post, d ≠ [] ∧ (∀ c ∈ d, c.isDigit = true) ∧ ThousandsGroups g ∧
        w ≠ [] ∧ (∀ c ∈ w, isPySpace c = true) ∧ boundaryHead post = true ∧
        l = d ++ g ++ w ++ lit ++ post := by
  unfold numWordAt
  rw [List.any_eq_true]
  constructor
  · rintro ⟨t1, ht1, h2⟩
    rw [List.any_eq_true] at h2
    obtain ⟨t2, ht2, h3⟩ := h2
    obtain ⟨d, hdne, hdig, rfl⟩ := (mem_digitRunTails l t1).mp ht1
    obtain ⟨g, hg, rfl⟩ := (mem_groupTails t2 t1).mp ht2
    obtain ⟨w, post, hwne, hw, hb, rfl⟩ := (wsThenLitTail_iff lit hlit t2).mp h3
    exact ⟨d, g, w, post, hdne, hdig, hg, hwne, hw, hb, by simp [List.append_assoc]⟩
  · rintro ⟨d, g, w, post, hdne, hdig, hg, hwne, hw, hb, rfl⟩
    refine ⟨g ++ (w ++ lit ++ post), (mem_digitRunTails _ _).mpr
      ⟨d, hdne, hdig, by simp [List.append_assoc]⟩, ?_⟩
    rw [List.any_eq_true]
    refine ⟨w ++ lit ++ post, (mem_groupTails _ _).mpr ⟨g, hg, rfl⟩, ?_⟩
    exact (wsThenLitTail_iff lit hlit _).mpr ⟨w, post, hwne, hw, hb, rfl⟩

/-- The character immediately before the suffix that starts after
`pre`, when the character before the whole list is `prev`. -/
def beforeChar (prev : Option Char) (pre : List Char) : Option Char :=
  match pre.getLast? with
  | some c => some c
  | none => prev

theorem beforeChar_cons (prev : Option Char) (c : Char) (pre : List Char) :
    beforeChar prev (c :: pre) = beforeChar (some c) pre := by
  cases pre with
  | nil => rfl
  | cons x xs =>
    unfold beforeChar
    rw [List.getLast?_cons_cons]
    cases hy : (x :: xs).getLast? with
    | none =>
      have hne : (x :: xs).getLast?.isSome := List.getLast?_isSome.mpr (by simp)
      rw [hy] at hne
      exact Bool.noConfusion hne
    | some y => rfl

theorem searchNumWord_iff (lit : List Char) :
    ∀ (l : List Char) (prev : Option Char),
      searchNumWord lit prev l = true ↔
        ∃ pre rest, notWordOpt (beforeChar prev pre) = true ∧ numWordAt lit rest = true ∧
          l = pre ++ rest := by
  intro l
  induction l with
  | nil =>
    intro prev
    simp only [searchNumWord]
    constructor
    · intro h; exact Bool.noConfusion h
    · rintro ⟨pre, rest, hb, hnw, heq⟩
      rw [(List.append_eq_nil.mp heq.symm).2] at hnw
      exact Bool.noConfusion hnw
  | cons c cs ih =>
    intro prev
    simp only [searchNumWord, Bool.or_eq_true, Bool.and_eq_true]
    constructor
    · rintro (⟨hp, hat⟩ | hrec)
      · exact ⟨[], c :: cs, hp, hat, rfl⟩
      · obtain ⟨pre, rest, hb, hnw, heq⟩ := (ih (some c)).mp hrec
        exact ⟨c :: pre, rest, by rw [beforeChar_cons]; exact hb, hnw, by rw [heq]; rfl⟩
    · rintro ⟨pre, rest, hb, hnw, heq⟩
      cases pre with
      | nil =>
        left
        have hr : rest = c :: cs := by simpa using heq.symm
        subst hr
        exact ⟨hb, hnw⟩
      | cons p pre' =>
        right
        rw [List.cons_append, List.cons.injEq] at heq
        obtain ⟨rfl, hcs⟩ := heq
        exact (ih (some c)).mpr ⟨pre', rest, by rw [← beforeChar_cons]; exact hb, hnw, hcs⟩

/-! ## Helper lemmas: the dollar-sign pattern -/

theorem dollarAmountAt_iff (l : List Char) :
    dollarAmountAt l = true ↔
      ∃ d g post, d ≠ [] ∧ (∀ c ∈ d, c.isDigit = true) ∧ ThousandsGroups g ∧
        l = '$' :: (d ++ g ++ post) := by
  cases l with
  | nil =>
    constructor
    · intro h; exact Bool.noConfusion h
    · rintro ⟨d, g, post, -, -, -, heq⟩; exact List.noConfusion heq
  | cons c rest =>
    by_cases hc : c = '$'
    · subst hc
      have hdef : dollarAmountAt ('$' :: rest) =
          (digitRunTails rest).any fun t1 =>
            (groupTails t1).any fun t2 => !(optDecTails t2).isEmpty := rfl
      rw [hdef, List.any_eq_true]
      constructor
      · rintro ⟨t1, ht1, h2⟩
        rw [List.any_eq_true] at h2
        obtain ⟨t2, ht2, -⟩ := h2
        obtain ⟨d, hdne, hdig, rfl⟩ := (mem_digitRunTails rest t1).mp ht1
        obtain ⟨g, hg, rfl⟩ := (mem_groupTails t2 t1).mp ht2
        exact ⟨d, g, t2, hdne, hdig, hg, by simp [List.append_assoc]⟩
      · rintro ⟨d, g, post, hdne, hdig, hg, heq⟩
        rw [List.cons.injEq] at heq
        obtain ⟨-, rfl⟩ := heq
        refine ⟨g ++ post, (mem_digitRunTails _ _).mpr ⟨d, hdne, hdig, by
          simp [List.append_assoc]⟩, ?_⟩
        rw [List.any_eq_true]
        exact ⟨post, (mem_groupTails _ _).mpr ⟨g, hg, rfl⟩, rfl⟩
    · constructor
      · intro h
        unfold dollarAmountAt at h
        split at h
        · rename_i heq
          rw [List.cons.injEq] at heq
          exact absurd heq.1 hc
        · exact Bool.noConfusion h
      · rintro ⟨d, g, post, -, -, -, heq⟩
        rw [List.cons.injEq] at heq
        exact absurd heq.1 hc

theorem searchDollarAmount_iff :
    ∀ l : List Char, searchDollarAmount l = true ↔
      ∃ pre rest, dollarAmountAt rest = true ∧ l = pre ++ rest := by
  intro l
  induction l with
  | nil =>
    constructor
    · intro h; exact Bool.noConfusion h
    · rintro ⟨pre, rest, hda, heq⟩
      rw [(List.append_eq_nil.mp heq.symm).2] at hda
      exact Bool.noConfusion hda
  | cons c cs ih =>
    simp only [searchDollarAmount, Bool.or_eq_true]
    constructor
    · rintro (h | hrec)
      · exact ⟨[], c :: cs, h, rfl⟩
      · obtain ⟨pre, rest, h, heq⟩ := ih.mp hrec
        exact ⟨c :: pre, rest, h, by rw [heq]; rfl⟩
    · rintro ⟨pre, rest, h, heq⟩
      cases pre with
      | nil =>
        left
        have hr : rest = c :: cs := by simpa using heq.symm
        subst hr
        exact h
      | cons p pre' =>
        right
        rw [List.cons_append, List.cons.injEq] at heq
        exact ih.mpr ⟨pre', rest, h, heq.2⟩

theorem beforeChar_none (pre : List Char) : beforeChar none pre = pre.getLast? := by
  unfold beforeChar
  cases pre.getLast? with
  | none => rfl
  | some y => rfl

theorem searchDollarAmount_spec (s : List Char) :
    searchDollarAmount s = true ↔ SpecDollarAmount s := by
  rw [searchDollarAmount_iff]
  constructor
  · rintro ⟨pre, rest, hda, rfl⟩
    obtain ⟨d, g, post, hdne, hdig, hg, rfl⟩ := (dollarAmountAt_iff rest).mp hda
    exact ⟨pre, d, g, [], post, hdne, hdig, hg, Or.inl rfl, by simp⟩
  · rintro ⟨pre, d, g, x, post, hdne, hdig, hg, hx, rfl⟩
    exact ⟨pre, '$' :: (d ++ g ++ x ++ post), (dollarAmountAt_iff _).mpr
      ⟨d, g, x ++ post, hdne, hdig, hg, by simp [List.append_assoc]⟩, rfl⟩

theorem searchNumWord_spec (lit : List Char) (hlit : lit ≠ []) (s : List Char) :
    searchNumWord lit none s = true ↔ SpecNumWord lit s := by
  rw [searchNumWord_iff lit s none]
  constructor
  · rintro ⟨pre, rest, hb, hnw, rfl⟩
    obtain ⟨d, g, w, post, hdne, hdig, hg, hwne, hw, hbp, rfl⟩ :=
      (numWordAt_iff lit hlit rest).mp hnw
    exact ⟨pre, d, g, w, post, hdne, hdig, hg, hwne, hw,
      by rw [← beforeChar_none]; exact hb, hbp, rfl⟩
  · rintro ⟨pre, d, g, w, post, hdne, hdig, hg, hwne, hw, hb, hbp, rfl⟩
    exact ⟨pre, d ++ g ++ w ++ lit ++ post, by rw [beforeChar_none]; exact hb,
      (numWordAt_iff lit hlit _).mpr ⟨d, g, w, post, hdne, hdig, hg, hwne, hw, hbp, rfl⟩, rfl⟩

/-! ## Helper lemmas: the extractor -/

theorem consHead_ne_nil (c : Char) (ls : List (List Char)) : consHead c ls ≠ [] := by
  cases ls <;> simp [consHead]

theorem split_ellipsis_ne_nil (l : List Char) : split_ellipsis l ≠ [] := by
  unfold split_ellipsis
  split
  · simp
  · exact consHead_ne_nil _ _
  · simp

/-- The description computation of `scrapper.py:209-210` never raises:
`split` always returns at least one segment, and the Python index
`len - 2` is either a valid non-negative index (two or more segments)
or `-1`, which wraps to the single segment. -/
theorem descriptionFrom_ok (s : String) :
    descriptionFrom s =
      .ok (String.mk (py_strip
        ((split_ellipsis s.data).getD ((split_ellipsis s.data).length - 2) []))) := by
  unfold descriptionFrom
  rcases hsp : split_ellipsis s.data with - | ⟨a, tl⟩
  · exact absurd hsp (split_ellipsis_ne_nil _)
  · rcases tl with - | ⟨b, tl'⟩
    · simp [py_getitem]
    · have hlen : (a :: b :: tl').length = tl'.length + 2 := by simp
      have hi : ((a :: b :: tl').length : Int) - 2 = (tl'.length : Int) := by
        rw [hlen]; push_cast; ring
      rw [hi]
      have hnlt : ¬ ((tl'.length : Int) < 0) := by omega
      have hidx : tl'.length < (a :: b :: tl').length := by rw [hlen]; omega
      simp only [py_getitem, if_neg hnlt, Int.toNat_natCast]
      rw [List.get?_eq_get hidx]
      simp [List.getD_eq_getElem?_getD, List.get?_eq_get hidx, hlen]

/-- The extraction loop, characterised: it emits exactly the records of
the iterations before the first `break`, in order. -/
theorem process_structure (env : ExtractorEnv) (mlimit : Int) (phrase : String) :
    ∀ (l : List RawArticleHandle) (i : Nat),
      process_news_payload env mlimit phrase l i =
        ((List.enumFrom i l).takeWhile fun p => !handleStops env mlimit phrase p).filterMap
          (handleRecord env mlimit phrase) := by
  intro l
  induction l with
  | nil => intro i; rfl
  | cons h rest ih =>
    intro i
    have hLHS : process_news_payload env mlimit phrase (h :: rest) i =
        match processBody env mlimit phrase i h with
        | .error _ => process_news_payload env mlimit phrase rest (i + 1)
        | .ok .skip => process_news_payload env mlimit phrase rest (i + 1)
        | .ok .stop => []
        | .ok (.add r) => r :: process_news_payload env mlimit phrase rest (i + 1) := rfl
    have hEnum : List.enumFrom i (h :: rest) = (i, h) :: List.enumFrom (i + 1) rest := rfl
    rw [hLHS, hEnum, List.takeWhile_cons]
    rcases hb : processBody env mlimit phrase i h with e | o
    · have hs : (!handleStops env mlimit phrase (i, h)) = true := by
        simp [handleStops, hb]
      rw [if_pos hs, List.filterMap_cons]
      have hr : handleRecord env mlimit phrase (i, h) = none := by
        simp [handleRecord, hb]
      rw [hr]
      exact ih (i + 1)
    · cases o with
      | add r =>
        have hs : (!handleStops env mlimit phrase (i, h)) = true := by
          simp [handleStops, hb]
        rw [if_pos hs, List.filterMap_cons]
        have hr : handleRecord env mlimit phrase (i, h) = some r := by
          simp [handleRecord, hb]
        rw [hr]
        exact congrArg (r :: ·) (ih (i + 1))
      | skip =>
        have hs : (!handleStops env mlimit phrase (i, h)) = true := by
          simp [handleStops, hb]
        rw [if_pos hs, List.filterMap_cons]
        have hr : handleRecord env mlimit phrase (i, h) = none := by
          simp [handleRecord, hb]
        rw [hr]
        exact ih (i + 1)
      | stop =>
        have hs : (!handleStops env mlimit phrase (i, h)) = false := by
          simp [handleStops, hb]
        rw [if_neg (by simp [hs]), List.filterMap_nil]

/-- An iteration whose body raises contributes nothing and does not end
the loop. -/
theorem process_skips_error (env : ExtractorEnv) (mlimit : Int) (phrase : String)
    (h : RawArticleHandle) (rest : List RawArticleHandle) (i : Nat) (e : PyErr)
    (hb : processBody env mlimit phrase i h = .error e) :
    process_news_payload env mlimit phrase (h :: rest) i =
      process_news_payload env mlimit phrase rest (i + 1) := by
  have hLHS : process_news_payload env mlimit phrase (h :: rest) i =
      match processBody env mlimit phrase i h with
      | .error _ => process_news_payload env mlimit phrase rest (i + 1)
      | .ok .skip => process_news_payload env mlimit phrase rest (i + 1)
      | .ok .stop => []
      | .ok (.add r) => r :: process_news_payload env mlimit phrase rest (i + 1) := rfl
  rw [hLHS, hb]

/-- The loop `break`s exactly when all element reads succeed, the date
parses, and its month is below the limit. -/
theorem processBody_stop_iff (env : ExtractorEnv) (mlimit : Int) (phrase : String)
    (i : Nat) (h : RawArticleHandle) :
    processBody env mlimit phrase i h = .ok .stop ↔
      ∃ t dsc f d, h.title = .ok t ∧ h.descriptionText = .ok dsc ∧ h.footerText = .ok f ∧
        convert_string_to_datetime f = some d ∧ (d.month : Int) < mlimit := by
  unfold processBody
  rcases hht : h.title with e | t
  · simp [hht]
  · dsimp only
    rcases hhd : h.descriptionText with e | dsc
    · simp [hhd]
    · dsimp only
      rw [descriptionFrom_ok dsc]
      dsimp only
      rcases hhf : h.footerText with e | f
      · simp [hhf]
      · dsimp only
        rcases hcv : convert_string_to_datetime f with - | d
        · dsimp only
          constructor
          · intro hsk; exact absurd hsk (by simp)
          · rintro ⟨t', dsc', f', d', -, -, h3, h4, -⟩
            injection h3 with h3'
            subst h3'
            rw [hcv] at h4
            exact Option.noConfusion h4
        · dsimp only
          by_cases hm : (d.month : Int) ≥ mlimit
          · rw [if_pos hm]
            constructor
            · intro hstop
              exfalso
              rcases hhi : h.imgSrc with e2 | src <;> rw [hhi] at hstop
              · exact Except.noConfusion hstop
              · dsimp only at hstop
                rcases hng : get_news_image env.http src i with e3 | fet <;> rw [hng] at hstop
                · exact Except.noConfusion hstop
                · injection hstop with h'
                  exact StepOutcome.noConfusion h'
            · rintro ⟨t', dsc', f', d', -, -, h3, h4, h5⟩
              exfalso
              injection h3 with h3'
              subst h3'
              rw [hcv] at h4
              injection h4 with h4'
              subst h4'
              omega
          · rw [if_neg hm]
            constructor
            · intro _
              exact ⟨t, dsc, f, d, rfl, rfl, rfl, hcv, by omega⟩
            · intro _
              rfl

/-- A handle whose footer date parses to `None` is skipped, not a stop. -/
theorem processBody_skip_of_none (env : ExtractorEnv) (mlimit : Int) (phrase : String)
    (i : Nat) (h : RawArticleHandle) (t dsc f : String)
    (hht : h.title = .ok t) (hhd : h.descriptionText = .ok dsc)
    (hhf : h.footerText = .ok f) (hcv : convert_string_to_datetime f = none) :
    processBody env mlimit phrase i h = .ok .skip := by
  unfold processBody
  rw [hht, hhd]
  dsimp only
  rw [descriptionFrom_ok dsc]
  dsimp only
  rw [hhf]
  dsimp only
  rw [hcv]

/-! ## Helper lemmas: month bounds of parsed dates -/

theorem monthLookup_bounds (k : Char × Char × Char) (m : Nat)
    (h : monthLookup k = some m) : 1 ≤ m ∧ m ≤ 12 := by
  unfold monthLookup at h
  by_cases h1 : k = ('j', 'a', 'n')
  · rw [if_pos h1] at h; injection h with h'; omega
  · rw [if_neg h1] at h
    by_cases h2 : k = ('f', 'e', 'b')
    · rw [if_pos h2] at h; injection h with h'; omega
    · rw [if_neg h2] at h
      by_cases h3 : k = ('m', 'a', 'r')
      · rw [if_pos h3] at h; injection h with h'; omega
      · rw [if_neg h3] at h
        by_cases h4 : k = ('a', 'p', 'r')
        · rw [if_pos h4] at h; injection h with h'; omega
        · rw [if_neg h4] at h
          by_cases h5 : k = ('m', 'a', 'y')
          · rw [if_pos h5] at h; injection h with h'; omega
          · rw [if_neg h5] at h
            by_cases h6 : k = ('j', 'u', 'n')
            · rw [if_pos h6] at h; injection h with h'; omega
            · rw [if_neg h6] at h
              by_cases h7 : k = ('j', 'u', 'l')
              · rw [if_pos h7] at h; injection h with h'; omega
              · rw [if_neg h7] at h
                by_cases h8 : k = ('a', 'u', 'g')
                · rw [if_pos h8] at h; injection h with h'; omega
                · rw [if_neg h8] at h
                  by_cases h9 : k = ('s', 'e', 'p')
                  · rw [if_pos h9] at h; injection h with h'; omega
                  · rw [if_neg h9] at h
                    by_cases h10 : k = ('o', 'c', 't')
                    · rw [if_pos h10] at h; injection h with h'; omega
                    · rw [if_neg h10] at h
                      by_cases h11 : k = ('n', 'o', 'v')
                      · rw [if_pos h11] at h; injection h with h'; omega
                      · rw [if_neg h11] at h
                        by_cases h12 : k = ('d', 'e', 'c')
                        · rw [if_pos h12] at h; injection h with h'; omega
                        · rw [if_neg h12] at h
                          exact Option.noConfusion h

theorem monthFromAbbrev_bounds (a b c : Char) (m : Nat)
    (h : monthFromAbbrev a b c = some m) : 1 ≤ m ∧ m ≤ 12 :=
  monthLookup_bounds _ m h

theorem finishMonthYear_month_bounds (day : Nat) (l : List Char) (d : PyDate)
    (h : finishMonthYear day l = some d) : 1 ≤ d.month ∧ d.month ≤ 12 := by
  unfold finishMonthYear at h
  split at h
  · rename_i m1 m2 m3 y1 y2 y3 y4
    cases hma : monthFromAbbrev m1 m2 m3 with
    | none => rw [hma] at h; exact Option.noConfusion h
    | some mo =>
      rw [hma] at h
      dsimp only at h
      split at h
      · split at h
        · injection h with h'
          subst h'
          simpa using (monthFromAbbrev_bounds m1 m2 m3 mo hma)
        · exact Option.noConfusion h
      · exact Option.noConfusion h
  · exact Option.noConfusion h

theorem strptime_dbY_month_bounds (g : List Char) (d : PyDate)
    (h : strptime_dbY g = some d) : 1 ≤ d.month ∧ d.month ≤ 12 := by
  unfold strptime_dbY at h
  split at h
  · split at h
    · exact finishMonthYear_month_bounds _ _ _ h
    · exact Option.noConfusion h
  · split at h
    · exact finishMonthYear_month_bounds _ _ _ h
    · exact Option.noConfusion h
  · exact Option.noConfusion h

theorem convert_month_bounds (s : String) (d : PyDate)
    (h : convert_string_to_datetime s = some d) : 1 ≤ d.month ∧ d.month ≤ 12 := by
  unfold convert_string_to_datetime at h
  split at h
  · cases hg : searchDatePattern "Published On ".data s.data with
    | none => rw [hg] at h; exact Option.noConfusion h
    | some g => rw [hg] at h; exact strptime_dbY_month_bounds g d h
  · exact Option.noConfusion h

theorem takeWhile_of_all {α : Type} (p : α → Bool) :
    ∀ l : List α, (∀ a ∈ l, p a = true) → l.takeWhile p = l := by
  intro l
  induction l with
  | nil => intro _; rfl
  | cons a rest ih =>
    intro hall
    rw [List.takeWhile_cons, if_pos (hall a (List.mem_cons_self a rest))]
    rw [ih fun x hx => hall x (List.mem_cons_of_mem a hx)]

/-- When the month limit is at most 1, no iteration can `break`: every
parsed month is at least 1. -/
theorem handleStops_false_of_le_one (env : ExtractorEnv) (mlimit : Int) (phrase : String)
    (hml : mlimit ≤ 1) (p : Nat × RawArticleHandle) :
    handleStops env mlimit phrase p = false := by
  unfold handleStops
  cases hb : processBody env mlimit phrase p.1 p.2 with
  | error e => rfl
  | ok o =>
    cases o with
    | add r => rfl
    | skip => rfl
    | stop =>
      exfalso
      obtain ⟨t, dsc, f, d, -, -, -, hcv, hlt⟩ :=
        (processBody_stop_iff env mlimit phrase p.1 p.2).mp hb
      have hbounds := convert_month_bounds f d hcv
      omega

theorem process_eq_filterMap_of_le_one (env : ExtractorEnv) (mlimit : Int) (phrase : String)
    (hml : mlimit ≤ 1) (l : List RawArticleHandle) (i : Nat) :
    process_news_payload env mlimit phrase l i =
      (List.enumFrom i l).filterMap (handleRecord env mlimit phrase) := by
  rw [process_structure]
  rw [takeWhile_of_all _ _ fun p _ => by
    rw [handleStops_false_of_le_one env mlimit phrase hml p]; rfl]

/-- The successful-record branch, explicitly: all reads succeed, the
date is in range, and the image fetch returns. -/
theorem processBody_add_of (env : ExtractorEnv) (mlimit : Int) (phrase : String)
    (i : Nat) (h : RawArticleHandle) (t dsc f : String) (d : PyDate) (src : String)
    (fet : FetchResult)
    (hht : h.title = .ok t) (hhd : h.descriptionText = .ok dsc)
    (hhf : h.footerText = .ok f) (hcv : convert_string_to_datetime f = some d)
    (hm : (d.month : Int) ≥ mlimit) (hhi : h.imgSrc = .ok src)
    (hng : get_news_image env.http src i = .ok fet) :
    ∃ r, processBody env mlimit phrase i h = .ok (.add r) ∧
      r.title = t ∧ r.img_file_name = fet.name ∧
      r.description = String.mk (py_strip
        ((split_ellipsis dsc.data).getD ((split_ellipsis dsc.data).length - 2) [])) := by
  unfold processBody
  rw [hht]
  dsimp only
  rw [hhd]
  dsimp only
  rw [descriptionFrom_ok dsc]
  dsimp only
  rw [hhf]
  dsimp only
  rw [hcv]
  dsimp only
  rw [if_pos hm, hhi]
  dsimp only
  rw [hng]
  exact ⟨_, rfl, rfl, rfl, rfl⟩

/-- Any record the body builds counts the phrase in its own title and
description fields. -/
theorem processBody_add_occurrence (env : ExtractorEnv) (mlimit : Int) (phrase : String)
    (i : Nat) (h : RawArticleHandle) (r : ArticleRecord)
    (hadd : processBody env mlimit phrase i h = .ok (.add r)) :
    r.search_term_occurrence =
      py_count phrase.data r.title.data + py_count phrase.data r.description.data := by
  unfold processBody at hadd
  rcases hht : h.title with e | t <;> rw [hht] at hadd
  · exact Except.noConfusion hadd
  · dsimp only at hadd
    rcases hhd : h.descriptionText with e | dsc <;> rw [hhd] at hadd
    · exact Except.noConfusion hadd
    · dsimp only at hadd
      rw [descriptionFrom_ok dsc] at hadd
      dsimp only at hadd
      rcases hhf : h.footerText with e | f <;> rw [hhf] at hadd
      · exact Except.noConfusion hadd
      · dsimp only at hadd
        rcases hcv : convert_string_to_datetime f with - | d <;> rw [hcv] at hadd
        · injection hadd with h'
          exact StepOutcome.noConfusion h'
        · dsimp only at hadd
          by_cases hm : (d.month : Int) ≥ mlimit
          · rw [if_pos hm] at hadd
            rcases hhi : h.imgSrc with e2 | src <;> rw [hhi] at hadd
            · exact Except.noConfusion hadd
            · dsimp only at hadd
              rcases hng : get_news_image env.http src i with e3 | fet <;> rw [hng] at hadd
              · exact Except.noConfusion hadd
              · injection hadd with h'
                injection h' with h''
                subst h''
                rfl
          · rw [if_neg hm] at hadd
            injection hadd with h'
            exact StepOutcome.noConfusion h'

/-- Occurrence counting, lifted to the whole loop output. -/
theorem mem_process_occurrence (env : ExtractorEnv) (mlimit : Int) (phrase : String) :
    ∀ (l : List RawArticleHandle) (i : Nat) (r : ArticleRecord),
      r ∈ process_news_payload env mlimit phrase l i →
      r.search_term_occurrence =
        py_count phrase.data r.title.data + py_count phrase.data r.description.data := by
  intro l
  induction l with
  | nil => intro i r hr; exact absurd hr (List.not_mem_nil r)
  | cons h rest ih =>
    intro i r hr
    have hLHS : process_news_payload env mlimit phrase (h :: rest) i =
        match processBody env mlimit phrase i h with
        | .error _ => process_news_payload env mlimit phrase rest (i + 1)
        | .ok .skip => process_news_payload env mlimit phrase rest (i + 1)
        | .ok .stop => []
        | .ok (.add r) => r :: process_news_payload env mlimit phrase rest (i + 1) := rfl
    rw [hLHS] at hr
    rcases hb : processBody env mlimit phrase i h with e | o
    · rw [hb] at hr
      exact ih (i + 1) r hr
    · rw [hb] at hr
      cases o with
      | add r0 =>
        rcases List.mem_cons.mp hr with rfl | hr'
        · exact processBody_add_occurrence env mlimit phrase i h r hb
        · exact ih (i + 1) r hr'
      | skip => exact ih (i + 1) r hr
      | stop => exact absurd hr (List.not_mem_nil r)

/-! ## Helper lemmas: the report writer -/

/-- The record field names, in the dict's insertion order. -/
def fieldNames : List String :=
  ["title", "date", "description", "search_term_occurrence", "contains_money", "img_file_name"]

/-- A record's values, in the same order as `fieldNames`. -/
def recordValues (r : ArticleRecord) : List CellValue :=
  [.str r.title, .str r.date, .str r.description, .nat r.search_term_occurrence,
   .bool r.contains_money, .str r.img_file_name]

/-- The header row the claim expects: field names at row 1,
columns 1.. in the first record's key order. -/
def expectedHeader : List (Nat × Nat × CellValue) :=
  (List.enumFrom 1 fieldNames).map fun p => (1, p.1, CellValue.str p.2)

/-- The data rows the claim expects: record `k` (0-based) at row `k+2`,
values in the header's column order. -/
def expectedRows (rs : List ArticleRecord) : List (Nat × Nat × CellValue) :=
  (List.enumFrom 2 rs).flatMap fun q =>
    (List.enumFrom 1 (recordValues q.2)).map fun p => (q.1, p.1, p.2)

theorem enumFrom_map {α β : Type} (g : α → β) :
    ∀ (l : List α) (n : Nat),
      List.enumFrom n (l.map g) = (List.enumFrom n l).map fun p => (p.1, g p.2) := by
  intro l
  induction l with
  | nil => intro n; rfl
  | cons a tl ih =>
    intro n
    show (n, g a) :: List.enumFrom (n + 1) (tl.map g) = _
    rw [ih (n + 1)]
    rfl

theorem save_payload_records (rs : List ArticleRecord) (hne : rs ≠ []) :
    save_payload_to_excel (rs.map recordToDict) =
      .ok (expectedHeader ++ expectedRows rs) := by
  cases rs with
  | nil => exact absurd rfl hne
  | cons r rest =>
    have h1 : save_payload_to_excel ((r :: rest).map recordToDict) =
        .ok ((List.enumFrom 1 ((recordToDict r).map Prod.fst)).map
              (fun p => (1, p.1, CellValue.str p.2)) ++
            (List.enumFrom 2 ((r :: rest).map recordToDict)).flatMap fun q =>
              (List.enumFrom 1 q.2).map fun p => (q.1, p.1, p.2.2)) := rfl
    rw [h1, enumFrom_map recordToDict (r :: rest) 2, List.flatMap_map]
    have h2 : (fun (q : Nat × ArticleRecord) =>
        (List.enumFrom 1 (recordToDict q.2)).map fun p => ((q.1, recordToDict q.2).1, p.1, p.2.2)) =
        fun (q : Nat × ArticleRecord) =>
          (List.enumFrom 1 (recordValues q.2)).map fun p => (q.1, p.1, p.2) :=
      funext fun q => rfl
    rw [show ((recordToDict r).map Prod.fst) = fieldNames from rfl]
    exact congrArg Except.ok (congrArg (expectedHeader ++ ·) (congrArg _ h2))

theorem handleStops_true_iff (env : ExtractorEnv) (mlimit : Int) (phrase : String)
    (p : Nat × RawArticleHandle) :
    handleStops env mlimit phrase p = true ↔
      processBody env mlimit phrase p.1 p.2 = .ok .stop := by
  unfold handleStops
  cases hb : processBody env mlimit phrase p.1 p.2 with
  | error e =>
    constructor
    · intro hc; exact Bool.noConfusion hc
    · intro hc; exact Except.noConfusion hc
  | ok o =>
    cases o with
    | add r =>
      constructor
      · intro hc; exact Bool.noConfusion hc
      · intro hc; injection hc with hc'; exact StepOutcome.noConfusion hc'
    | skip =>
      constructor
      · intro hc; exact Bool.noConfusion hc
      · intro hc; injection hc with hc'; exact StepOutcome.noConfusion hc'
    | stop => exact ⟨fun _ => rfl, fun _ => rfl⟩

/-! ## Claim theorems -/

/-- C1 (code bug): the `return None` at `scrapper.py:314` is indented
inside the pattern loop, so for a footer containing only
`Last update 31 Dec 2023` the function returns `None` — even though the
second pattern in its own `date_patterns` list (line 302) matches that
footer and parses to 2023-12-31.  The fallback the claim describes
never happens. -/
theorem C1_convert_last_update_code_bug :
    convert_string_to_datetime "Last update 31 Dec 2023" = none ∧
      ((searchDatePattern "Last update ".data "Last update 31 Dec 2023".data).bind
        strptime_dbY) = some ⟨2023, 12, 31⟩ :=
  ⟨rfl, rfl⟩

/-- C2: extraction returns exactly the records of the iterations before
the first stop, in input order; an iteration stops exactly when its
reads succeed and the parsed month is below `month_limit` (so the loop
halts permanently there, whatever follows); a handle whose footer date
parses to `None` yields a skip, not a stop. -/
theorem C2_extraction_prefix_stop_skip (env : ExtractorEnv) (mlimit : Int) (phrase : String) :
    (∀ (l : List RawArticleHandle) (i : Nat),
        process_news_payload env mlimit phrase l i =
          ((List.enumFrom i l).takeWhile fun p => !handleStops env mlimit phrase p).filterMap
            (handleRecord env mlimit phrase))
    ∧ (∀ (i : Nat) (h : RawArticleHandle),
        handleStops env mlimit phrase (i, h) = true ↔
          ∃ t dsc f d, h.title = .ok t ∧ h.descriptionText = .ok dsc ∧
            h.footerText = .ok f ∧ convert_string_to_datetime f = some d ∧
            (d.month : Int) < mlimit)
    ∧ (∀ (i : Nat) (h : RawArticleHandle) (t dsc f : String),
        h.title = .ok t → h.descriptionText = .ok dsc → h.footerText = .ok f →
        convert_string_to_datetime f = none →
        processBody env mlimit phrase i h = .ok .skip) := by
  refine ⟨process_structure env mlimit phrase, ?_, ?_⟩
  · intro i h
    exact (handleStops_true_iff env mlimit phrase (i, h)).trans
      (processBody_stop_iff env mlimit phrase i h)
  · intro i h t dsc f hht hhd hhf hcv
    exact processBody_skip_of_none env mlimit phrase i h t dsc f hht hhd hhf hcv

theorem C2_extraction_prefix_stop_skip_witness :
    process_news_payload ⟨fun _ => Except.ok ⟨200, "IMG"⟩⟩ 2 "Beta"
        [⟨Except.ok "Title One", Except.ok "Alpha...Beta...",
          Except.ok "Published On 5 Feb 2024", Except.ok "u1"⟩,
         ⟨Except.ok "T2", Except.ok "x...y...", Except.ok "Published On 5 Jan 2024",
          Except.ok "u2"⟩,
         ⟨Except.ok "T3", Except.ok "x...y...", Except.ok "Published On 5 Mar 2024",
          Except.ok "u3"⟩] 0
      = [⟨"Title One", "05 Feb 2024", "Beta", 1, false, "img_0.png"⟩] := by
  rw [(C2_extraction_prefix_stop_skip ⟨fun _ => Except.ok ⟨200, "IMG"⟩⟩ 2 "Beta").1]
  decide

/-- C3 counterexample: with an HTTP client that raises (a request
timeout), `get_news_image` propagates the exception instead of
returning the sentinel, so the claim's "never raises" is false. -/
theorem C3_image_timeout_counterexample :
    get_news_image (fun _ => Except.error PyErr.timeout) "http://e/i.png" 0 =
        Except.error PyErr.timeout ∧
      get_news_image (fun _ => Except.error PyErr.timeout) "http://e/i.png" 0 ≠
        Except.ok ⟨"Unavailable", []⟩ :=
  ⟨rfl, by decide⟩

/-- C3 amended: on a non-success status the fetch returns the sentinel
`Unavailable` (writing nothing) and the record is still produced; on a
200 status it writes `output/imgs/img_<idx>.png` and returns that file
name; but a raised request exception (such as a timeout) propagates out
of `get_news_image`, and the extractor's per-handle handler then skips
that whole handle (no record) and continues with the rest. -/
theorem C3_image_fetch_amended (http : String → Except PyErr HttpResp) (src : String)
    (idx : Nat) :
    (∀ resp, http src = .ok resp → resp.status ≠ 200 →
      get_news_image http src idx = .ok ⟨"Unavailable", []⟩)
    ∧ (∀ resp, http src = .ok resp → resp.status = 200 →
      get_news_image http src idx = .ok ⟨"img_" ++ toString idx ++ ".png",
        [(img_directory ++ "/" ++ ("img_" ++ toString idx ++ ".png"), resp.content)]⟩)
    ∧ (∀ e, http src = .error e → get_news_image http src idx = .error e)
    ∧ (∀ (env : ExtractorEnv) (mlimit : Int) (phrase : String) (i : Nat)
        (h : RawArticleHandle) (rest : List RawArticleHandle) (e : PyErr),
        processBody env mlimit phrase i h = .error e →
        process_news_payload env mlimit phrase (h :: rest) i =
          process_news_payload env mlimit phrase rest (i + 1))
    ∧ (∀ (env : ExtractorEnv) (mlimit : Int) (phrase : String) (i : Nat)
        (h : RawArticleHandle) (t dsc f : String) (d : PyDate) (src2 : String)
        (resp : HttpResp),
        h.title = .ok t → h.descriptionText = .ok dsc → h.footerText = .ok f →
        convert_string_to_datetime f = some d → (d.month : Int) ≥ mlimit →
        h.imgSrc = .ok src2 → env.http src2 = .ok resp → resp.status ≠ 200 →
        ∃ r, processBody env mlimit phrase i h = .ok (.add r) ∧
          r.img_file_name = "Unavailable") := by
  refine ⟨?_, ?_, ?_, ?_, ?_⟩
  · intro resp hok hns
    unfold get_news_image
    rw [hok]
    dsimp only
    rw [if_neg hns]
  · intro resp hok hs
    unfold get_news_image
    rw [hok]
    dsimp only
    rw [if_pos hs]
  · intro e he
    unfold get_news_image
    rw [he]
  · intro env mlimit phrase i h rest e hb
    exact process_skips_error env mlimit phrase h rest i e hb
  · intro env mlimit phrase i h t dsc f d src2 resp hht hhd hhf hcv hm hhi hresp hns
    have hng : get_news_image env.http src2 i = .ok ⟨"Unavailable", []⟩ := by
      unfold get_news_image
      rw [hresp]
      dsimp only
      rw [if_neg hns]
    obtain ⟨r, hr, -, hname, -⟩ :=
      processBody_add_of env mlimit phrase i h t dsc f d src2 ⟨"Unavailable", []⟩
        hht hhd hhf hcv hm hhi hng
    exact ⟨r, hr, hname⟩

theorem C3_image_fetch_amended_witness :
    get_news_image (fun _ => Except.ok ⟨404, "nf"⟩) "u" 3 = Except.ok ⟨"Unavailable", []⟩ :=
  (C3_image_fetch_amended (fun _ => Except.ok ⟨404, "nf"⟩) "u" 3).1 ⟨404, "nf"⟩ rfl (by decide)

/-- C4 counterexample: a rendered description with no `...` delimiter
does not make the indexing fail — the split has one segment and the
Python index `len - 2 = -1` wraps to it — so the article is kept, with
the whole text (trimmed) as its description, not skipped. -/
theorem C4_missing_ellipsis_counterexample :
    process_news_payload ⟨fun _ => Except.ok ⟨200, "IMG"⟩⟩ 1 "qqq"
        [⟨Except.ok "Title", Except.ok "Big news today",
          Except.ok "Published On 5 Jan 2024", Except.ok "u"⟩] 0
      = [⟨"Title", "05 Jan 2024", "Big news today", 0, false, "img_0.png"⟩] := by
  decide

/-- C4 amended: splitting on `...` always yields at least one segment;
with fewer than two segments the Python index `len - 2 = -1` selects
the single segment, so the description is the whole text trimmed and
the article is not skipped; with two or more segments the
second-to-last segment (trimmed) is used. -/
theorem C4_description_amended (s : String) :
    split_ellipsis s.data ≠ [] ∧
      descriptionFrom s = .ok (String.mk (py_strip
        ((split_ellipsis s.data).getD ((split_ellipsis s.data).length - 2) []))) :=
  ⟨split_ellipsis_ne_nil s.data, descriptionFrom_ok s⟩

/-- C5: `contains_money` returns `true` iff the text contains a
dollar-sign amount with optional thousands separators and up to two
decimal places, or an integer (with optional thousands separators)
followed (at word boundaries, after whitespace) by the literal word
`dollars`, or likewise by the literal `USD` (case-sensitive); the
patterns are tried in that order, which cannot change the boolean
result. -/
theorem C5_contains_money_iff (text : String) :
    contains_money text = true ↔
      SpecDollarAmount text.data ∨ SpecNumWord "dollars".data text.data ∨
        SpecNumWord "USD".data text.data := by
  have h1 := searchDollarAmount_spec text.data
  have h2 := searchNumWord_spec "dollars".data (by decide) text.data
  have h3 := searchNumWord_spec "USD".data (by decide) text.data
  have hq : contains_money text =
      (searchDollarAmount text.data ||
        (searchNumWord "dollars".data none text.data ||
          (searchNumWord "USD".data none text.data || false))) := rfl
  rw [hq]
  simp only [Bool.or_false, Bool.or_eq_true]
  exact or_congr h1 (or_congr h2 h3)

/-- C6: an exception raised while processing one handle is caught by
the loop's per-iteration handler: only that handle is skipped, the
remaining handles are still processed, and nothing propagates
(`process_news_payload` is a total function into record lists). -/
theorem C6_error_isolated (env : ExtractorEnv) (mlimit : Int) (phrase : String)
    (h : RawArticleHandle) (rest : List RawArticleHandle) (i : Nat) (e : PyErr)
    (hb : processBody env mlimit phrase i h = .error e) :
    process_news_payload env mlimit phrase (h :: rest) i =
      process_news_payload env mlimit phrase rest (i + 1) :=
  process_skips_error env mlimit phrase h rest i e hb

theorem C6_error_isolated_witness :
    process_news_payload ⟨fun _ => Except.ok ⟨200, "IMG"⟩⟩ 1 "q"
        [⟨Except.error PyErr.elementNotFound, Except.ok "a...b...",
          Except.ok "Published On 5 Jan 2024", Except.ok "u0"⟩,
         ⟨Except.ok "T", Except.ok "a...b...", Except.ok "Published On 5 Jan 2024",
          Except.ok "u1"⟩] 0
      = process_news_payload ⟨fun _ => Except.ok ⟨200, "IMG"⟩⟩ 1 "q"
          [⟨Except.ok "T", Except.ok "a...b...", Except.ok "Published On 5 Jan 2024",
            Except.ok "u1"⟩] 1 :=
  C6_error_isolated ⟨fun _ => Except.ok ⟨200, "IMG"⟩⟩ 1 "q"
    ⟨Except.error PyErr.elementNotFound, Except.ok "a...b...",
      Except.ok "Published On 5 Jan 2024", Except.ok "u0"⟩
    [⟨Except.ok "T", Except.ok "a...b...", Except.ok "Published On 5 Jan 2024",
      Except.ok "u1"⟩] 0 PyErr.elementNotFound (by decide)

/-- C7: every record in the extraction output has
`search_term_occurrence` equal to the number of literal, case-sensitive
(non-overlapping, CPython `str.count`) occurrences of the phrase in its
title plus those in its description; for the phrase `Gaza` with the
claim's example title and description the count is 3. -/
theorem C7_search_term_occurrence (env : ExtractorEnv) (mlimit : Int) (phrase : String) :
    (∀ (l : List RawArticleHandle) (i : Nat) (r : ArticleRecord),
        r ∈ process_news_payload env mlimit phrase l i →
        r.search_term_occurrence =
          py_count phrase.data r.title.data + py_count phrase.data r.description.data)
    ∧ py_count "Gaza".data "Gaza under fire".data +
        py_count "Gaza".data "Situation in Gaza worsens, Gaza residents flee".data = 3 :=
  ⟨mem_process_occurrence env mlimit phrase, by decide⟩

theorem C7_search_term_occurrence_witness :
    (⟨"Title One", "05 Feb 2024", "Beta", 1, false, "img_0.png"⟩ :
        ArticleRecord).search_term_occurrence =
      py_count "Beta".data "Title One".data + py_count "Beta".data "Beta".data :=
  (C7_search_term_occurrence ⟨fun _ => Except.ok ⟨200, "IMG"⟩⟩ 2 "Beta").1
    [⟨Except.ok "Title One", Except.ok "Alpha...Beta...",
      Except.ok "Published On 5 Feb 2024", Except.ok "u1"⟩] 0
    ⟨"Title One", "05 Feb 2024", "Beta", 1, false, "img_0.png"⟩ (by decide)

/-- C8: for a non-empty payload of records, the writer emits the field
names of the first record as row 1 (columns 1..6, key iteration order),
then one data row per record at rows 2..N+1, each record's values in
the header's column order. -/
theorem C8_save_layout (rs : List ArticleRecord) (hne : rs ≠ []) :
    save_payload_to_excel (rs.map recordToDict) = .ok (expectedHeader ++ expectedRows rs) :=
  save_payload_records rs hne

theorem C8_save_layout_witness :
    save_payload_to_excel ([(⟨"t", "05 Jan 2024", "x", 0, false, "i"⟩ : ArticleRecord)].map
        recordToDict)
      = Except.ok (expectedHeader ++
          expectedRows [⟨"t", "05 Jan 2024", "x", 0, false, "i"⟩]) :=
  C8_save_layout [⟨"t", "05 Jan 2024", "x", 0, false, "i"⟩] (by decide)

/-- C9: every run closes the browser session at least once, on both
exit paths; any failure inside the try body (searching, waiting for the
sort control, extracting, writing) is logged as an error, the browser
is closed, and a generic exception is re-raised to the caller, so a
failed run is never observed as a success. -/
theorem C9_scrape_cleanup_reraise (env : RunEnv) :
    1 ≤ (scrape env).browserCloses
    ∧ (∀ e, scrapeInner env = .error e →
        (scrape env).result = .error .generic ∧ (scrape env).loggedError = true ∧
          (scrape env).browserCloses = 2)
    ∧ (scrapeInner env = .ok () → (scrape env).result = .ok ()) := by
  unfold scrape
  cases hs : scrapeInner env with
  | ok u =>
    cases u
    refine ⟨by decide, ?_, fun _ => rfl⟩
    intro e he
    exact Except.noConfusion he
  | error e0 =>
    refine ⟨by dsimp only; decide, fun e _ => ⟨rfl, rfl, rfl⟩, ?_⟩
    intro hc
    exact Except.noConfusion hc

theorem C9_scrape_cleanup_reraise_witness :
    (scrape ⟨Except.error PyErr.timeout, Except.ok (), Except.ok [], fun _ => Except.ok (),
        ⟨fun _ => Except.ok ⟨200, "IMG"⟩⟩, 1, "q"⟩).result = Except.error PyErr.generic ∧
      (scrape ⟨Except.error PyErr.timeout, Except.ok (), Except.ok [], fun _ => Except.ok (),
        ⟨fun _ => Except.ok ⟨200, "IMG"⟩⟩, 1, "q"⟩).loggedError = true ∧
      (scrape ⟨Except.error PyErr.timeout, Except.ok (), Except.ok [], fun _ => Except.ok (),
        ⟨fun _ => Except.ok ⟨200, "IMG"⟩⟩, 1, "q"⟩).browserCloses = 2 :=
  (C9_scrape_cleanup_reraise ⟨Except.error PyErr.timeout, Except.ok (), Except.ok [],
    fun _ => Except.ok (), ⟨fun _ => Except.ok ⟨200, "IMG"⟩⟩, 1, "q"⟩).2.1
    PyErr.timeout (by rfl)

/-- C10: whenever `number_of_months - 1` is at least the current month
number, `month_limit ≤ 1`; and whenever `month_limit ≤ 1` the recency
test holds for every parseable date (months are ≥ 1), so the stop
branch is unreachable and extraction processes every handle of the
input (skipping only the malformed ones). -/
theorem C10_low_month_limit_no_stop :
    (∀ m n : Int, 1 ≤ m → m ≤ n - 1 → month_limit m n ≤ 1)
    ∧ (∀ (env : ExtractorEnv) (mlimit : Int) (phrase : String), mlimit ≤ 1 →
        (∀ p, handleStops env mlimit phrase p = false)
        ∧ ∀ (l : List RawArticleHandle) (i : Nat),
            process_news_payload env mlimit phrase l i =
              (List.enumFrom i l).filterMap (handleRecord env mlimit phrase)) := by
  constructor
  · intro m n h1 h2
    unfold month_limit
    rw [max_eq_left (by omega : (0 : Int) ≤ n - 1)]
    omega
  · intro env mlimit phrase hml
    exact ⟨handleStops_false_of_le_one env mlimit phrase hml,
      fun l i => process_eq_filterMap_of_le_one env mlimit phrase hml l i⟩

theorem C10_low_month_limit_no_stop_witness :
    month_limit 5 7 ≤ 1 ∧
      process_news_payload ⟨fun _ => Except.ok ⟨200, "IMG"⟩⟩ 1 "q"
          [⟨Except.ok "T", Except.ok "a...b...", Except.ok "Published On 5 Jan 2024",
            Except.ok "u"⟩] 0
        = (List.enumFrom 0
            [⟨Except.ok "T", Except.ok "a...b...", Except.ok "Published On 5 Jan 2024",
              Except.ok "u"⟩]).filterMap
            (handleRecord ⟨fun _ => Except.ok ⟨200, "IMG"⟩⟩ 1 "q") :=
  ⟨C10_low_month_limit_no_stop.1 5 7 (by decide) (by decide),
   (C10_low_month_limit_no_stop.2 ⟨fun _ => Except.ok ⟨200, "IMG"⟩⟩ 1 "q" (by decide)).2
     [⟨Except.ok "T", Except.ok "a...b...", Except.ok "Published On 5 Jan 2024",
       Except.ok "u"⟩] 0⟩

end NewsRobot
